import Mathlib

/-!
Shallow embedding of the `useVoxAI` React hook (vox.ai React SDK).

The hook reconciles events arriving over a `MessageChannel` from a sandboxed
LiveKit subtree (`StateMonitor`) into controller-owned state:
a transcript map, a per-speaker waveform cache, and a session phase,
and dispatches outbound commands over the same channel.

Modelling conventions:
* JS `Date.now()` is an explicit `now : Nat` parameter (milliseconds).
* JS `Map` (insertion ordered, unique keys) is a `List (String × VoxMessage)`
  with `mapSet` replacing in place or appending.
* The optional TS field `id?: string` is modelled as `String`, where the
  empty string plays the role of a JS falsy id (both `""` and `undefined`
  fail the `msg.id &&` truthiness checks in the code).
* JS `prevMap.get(t.id)?.timestamp || t.timestamp` is modelled with the
  falsiness of `0`: a stored timestamp of `0` is replaced, any other stored
  timestamp is kept.
* `JSON.stringify` comparison of two message lists is modelled as equality
  of the lists (stringify is injective on this data).
* `prevMessagesRef` starts as the string `""`, which no stringified list
  equals; it is modelled as `Option (List VoxMessage)`, starting at `none`.
* Promise rejection plus the `onError` callback of `connect` are modelled
  by an `Option String` result (`some` = rejected with that message).
* JS `Array.prototype.sort` with comparator `a.timestamp - b.timestamp`
  is a stable ascending sort; it is modelled by a stable insertion sort.
-/

namespace VoxAI

/-- The `name` field of `VoxMessage`: "agent" | "user" | "tool". -/
inductive Speaker where
  | agent
  | user
  | tool
deriving DecidableEq

/-- The speaker tag carried by channel events: "agent" | "user". -/
inductive AUSpeaker where
  | agent
  | user
deriving DecidableEq

/-- `VoxAgentState` from the source. -/
inductive VoxAgentState where
  | disconnected
  | connecting
  | initializing
  | listening
  | thinking
  | speaking
deriving DecidableEq

/-- `FunctionCallInfo` from the source. -/
structure FunctionCallInfo where
  id : String
  type : String
  call_id : String
  arguments : String
  name : String
deriving DecidableEq

/-- `FunctionCallResult` from the source. -/
structure FunctionCallResult where
  id : String
  name : String
  type : String
  call_id : String
  output : String
  is_error : Bool
deriving DecidableEq

/-- `FunctionToolsExecuted` from the source. -/
structure FunctionToolsExecuted where
  function_calls : List FunctionCallInfo
  function_call_outputs : List FunctionCallResult
deriving DecidableEq

/-- `VoxMessage` from the source. -/
structure VoxMessage where
  id : String
  name : Speaker
  message : Option String
  timestamp : Nat
  isFinal : Bool
  tool : Option FunctionToolsExecuted
deriving DecidableEq

/-- `TranscriptionSegment` from the source. -/
structure TranscriptionSegment where
  id : String
  text : String
  isFinal : Bool
  timestamp : Nat
  speaker : AUSpeaker
deriving DecidableEq

/-- `VoxConnectionDetail` from the source. -/
structure VoxConnectionDetail where
  serverUrl : String
  roomName : String
  participantName : String
  participantToken : String
deriving DecidableEq

/-- Waveform sample buffers per speaker (`waveformDataMap` state). -/
structure WaveformDataMap where
  agent : List Int
  user : List Int
deriving DecidableEq

/-- Look up one speaker's buffer in the waveform map. -/
def waveformOf (w : WaveformDataMap) : AUSpeaker → List Int
  | AUSpeaker.agent => w.agent
  | AUSpeaker.user => w.user

/-- Replace one speaker's buffer in the waveform map wholesale. -/
def setWaveform (w : WaveformDataMap) (sp : AUSpeaker) (data : List Int) : WaveformDataMap :=
  match sp with
  | AUSpeaker.agent => { w with agent := data }
  | AUSpeaker.user => { w with user := data }

/-- The `transcriptMap` state: a JS `Map<string, VoxMessage>`. -/
abbrev TranscriptMap := List (String × VoxMessage)

/-- JS `Map.prototype.get`. -/
def mapGet : TranscriptMap → String → Option VoxMessage
  | [], _ => none
  | p :: rest, k => if p.1 = k then some p.2 else mapGet rest k

/-- JS `Map.prototype.set`: replace the binding in place if the key is
present (JS maps have unique keys), append otherwise. -/
def mapSet : TranscriptMap → String → VoxMessage → TranscriptMap
  | [], k, v => [(k, v)]
  | p :: rest, k, v =>
    if p.1 = k then (k, v) :: rest else p :: mapSet rest k v

/-- JS `Map.prototype.values`, in insertion order. -/
def mapValues (m : TranscriptMap) : List VoxMessage :=
  m.map Prod.snd

/-- Insert a message into a timestamp-sorted list, before the first
strictly larger element and after equal ones (stability). -/
def insertSorted (a : VoxMessage) : List VoxMessage → List VoxMessage
  | [] => [a]
  | b :: rest =>
    if a.timestamp ≤ b.timestamp then a :: b :: rest else b :: insertSorted a rest

/-- Stable ascending sort by `timestamp`: the embedding of
`Array.from(transcriptMap.values()).sort((a, b) => a.timestamp - b.timestamp)`. -/
def sortByTimestamp : List VoxMessage → List VoxMessage
  | [] => []
  | a :: rest => insertSorted a (sortByTimestamp rest)

/-- The externally visible transcript derived from the store. -/
def visibleMessages (m : TranscriptMap) : List VoxMessage :=
  sortByTimestamp (mapValues m)

/-- The controller-side state owned by the hook. -/
structure HookState where
  connectionDetail : Option VoxConnectionDetail
  state : VoxAgentState
  sessionTimestamp : Nat
  transcriptMap : TranscriptMap
  messages : List VoxMessage
  prevMessages : Option (List VoxMessage)
  processedMessageIds : List String
  waveformDataMap : WaveformDataMap
deriving DecidableEq

/-- The hook's state right after mount (`now` is the `Date.now()` read by
`useRef(Date.now())` for the session timestamp). -/
def initialHookState (now : Nat) : HookState :=
  { connectionDetail := none
    state := VoxAgentState.disconnected
    sessionTimestamp := now
    transcriptMap := []
    messages := []
    prevMessages := none
    processedMessageIds := []
    waveformDataMap := { agent := [], user := [] } }

/-- The entry built for one incoming transcription segment.  The stored
timestamp comes from `prevMap.get(t.id)?.timestamp || t.timestamp`, so a
missing entry or a stored timestamp of `0` (JS falsy) yields the event's
own timestamp. -/
def segEntry (prevMap : TranscriptMap) (t : TranscriptionSegment) : VoxMessage :=
  { id := t.id
    name := match t.speaker with
      | AUSpeaker.agent => Speaker.agent
      | AUSpeaker.user => Speaker.user
    message := some t.text
    timestamp := match mapGet prevMap t.id with
      | some v => if v.timestamp ≠ 0 then v.timestamp else t.timestamp
      | none => t.timestamp
    isFinal := t.isFinal
    tool := none }

/-- `handleTranscriptionUpdate` from the source: fold the batch over the
map, dropping any segment whose timestamp precedes the session fence, and
upserting the rest (timestamps are looked up in the map as it was before
the batch, exactly as the code reads `prevMap`). -/
def handleTranscriptionUpdate (fence : Nat) (prevMap : TranscriptMap)
    (transcriptions : List TranscriptionSegment) : TranscriptMap :=
  transcriptions.foldl
    (fun newMap t =>
      if t.timestamp < fence then newMap
      else mapSet newMap t.id (segEntry prevMap t))
    prevMap

/-- The transcript key minted for a `function_tools_executed` event. -/
def functionCallsId (now : Nat) : String :=
  "function-calls-" ++ Nat.repr now

/-- The transcript entry recorded for a `function_tools_executed` event. -/
def toolEntry (now : Nat) (tool : FunctionToolsExecuted) : VoxMessage :=
  { id := functionCallsId now
    name := Speaker.tool
    message := none
    timestamp := now
    isFinal := true
    tool := some tool }

/-- Inbound channel events (`MessageChannelEvent` from the source). -/
inductive MessageChannelEvent where
  | state_update (state : VoxAgentState)
  | transcription_update (transcriptions : List TranscriptionSegment)
  | waveform_update (waveformData : List Int) (speaker : AUSpeaker)
  | function_tools_executed (tool : FunctionToolsExecuted)

/-- The `channel.port1.onmessage` handler from the source. -/
def onPortMessage (now : Nat) (s : HookState) : MessageChannelEvent → HookState
  | MessageChannelEvent.state_update st => { s with state := st }
  | MessageChannelEvent.transcription_update ts =>
    { s with transcriptMap := handleTranscriptionUpdate s.sessionTimestamp s.transcriptMap ts }
  | MessageChannelEvent.waveform_update data sp =>
    { s with waveformDataMap := setWaveform s.waveformDataMap sp data }
  | MessageChannelEvent.function_tools_executed tool =>
    { s with transcriptMap := mapSet s.transcriptMap (functionCallsId now) (toolEntry now tool) }

/-- Outbound channel messages posted on `port1`. -/
inductive OutboundMessage where
  | send_text (text : String)
  | send_dtmf (digit : Int)
  | toggle_mic (enabled : Bool)
  | waveform_config (speaker : AUSpeaker) (barCount : Nat) (updateInterval : Nat)
deriving DecidableEq

/-- The synchronous start of `connect`: reject (promise rejection plus
`onError`, returned as `some message`) when not disconnected, leaving the
state untouched; otherwise refresh the session fence and enter
`connecting`.  The rest of `connect` runs after the awaited fetch. -/
def connect (now : Nat) (s : HookState) : HookState × Option String :=
  if s.state ≠ VoxAgentState.disconnected then
    (s, some "Connection attempt rejected: Already in a connection state")
  else
    ({ s with sessionTimestamp := now, state := VoxAgentState.connecting }, none)

/-- The resolution of `connect` after a successful fetch. -/
def connectFulfilled (detail : VoxConnectionDetail) (s : HookState) : HookState :=
  { s with connectionDetail := some detail }

/-- The catch branch of `connect` (failed fetch or thrown error). -/
def connectCatch (s : HookState) : HookState :=
  { s with connectionDetail := none
           transcriptMap := []
           messages := []
           state := VoxAgentState.disconnected }

/-- `disconnect` from the source: refresh the fence, drop the connection
detail, clear the store and messages, return to `disconnected`. -/
def disconnect (now : Nat) (s : HookState) : HookState :=
  { s with sessionTimestamp := now
           connectionDetail := none
           transcriptMap := []
           messages := []
           state := VoxAgentState.disconnected }

/-- The transcript key minted for an optimistic local `send` of text. -/
def userTextId (now : Nat) : String :=
  "user-text-" ++ Nat.repr now

/-- `send` from the source.  Returns the new state and the list of
messages posted on the channel (the channel exists for the whole mount). -/
def send (now : Nat) (s : HookState) (message : Option String) (digit : Option Int) :
    HookState × List OutboundMessage :=
  if s.state = VoxAgentState.disconnected then (s, [])
  else
    let textPart : HookState × List OutboundMessage :=
      match message with
      | some msg =>
        if msg ≠ "" then
          let entry : VoxMessage :=
            { id := userTextId now
              name := Speaker.user
              message := some msg
              timestamp := now
              isFinal := true
              tool := none }
          ({ s with transcriptMap := mapSet s.transcriptMap (userTextId now) entry },
           [OutboundMessage.send_text msg])
        else (s, [])
      | none => (s, [])
    match digit with
    | some d => (textPart.1, textPart.2 ++ [OutboundMessage.send_dtmf d])
    | none => textPart

/-- `audioWaveform` from the source: post the requested configuration, then
return the cached buffer truncated to `barCount` if it is nonempty, and a
zero-filled buffer of length `barCount` otherwise. -/
def audioWaveform (s : HookState) (speaker : AUSpeaker) (barCount : Nat)
    (updateInterval : Nat) : List Int × OutboundMessage :=
  ((if (waveformOf s.waveformDataMap speaker).length > 0 then
      (waveformOf s.waveformDataMap speaker).take barCount
    else
      List.replicate barCount 0),
   OutboundMessage.waveform_config speaker barCount updateInterval)

/-- The `useEffect` reacting to `transcriptMap` changes: re-derive the
sorted message list; if its serialization differs from the previous one,
publish it and deliver every final, identified, not-yet-delivered message
to `onMessage`, recording each delivered identity. -/
def messagesEffect (s : HookState) : HookState × List VoxMessage :=
  let allMessages := visibleMessages s.transcriptMap
  if s.prevMessages = some allMessages then (s, [])
  else
    let newlyFinal := allMessages.filter fun m =>
      m.isFinal && decide (m.id ≠ "") && decide (m.id ∉ s.processedMessageIds)
    ({ s with prevMessages := some allMessages
              messages := allMessages
              processedMessageIds := s.processedMessageIds ++ newlyFinal.map VoxMessage.id },
     newlyFinal)

/-- Run the messages effect on each successive `transcriptMap` snapshot,
collecting every `onMessage` delivery in order. -/
def runEffects : HookState → List TranscriptMap → HookState × List VoxMessage
  | s, [] => (s, [])
  | s, mp :: rest =>
    let step := messagesEffect { s with transcriptMap := mp }
    let tail := runEffects step.1 rest
    (tail.1, step.2 ++ tail.2)

/-- The operations through which the program writes the transcript map. -/
inductive StoreOp where
  | transcription (fence : Nat) (transcriptions : List TranscriptionSegment)
  | toolBatch (now : Nat) (tool : FunctionToolsExecuted)
  | userText (now : Nat) (text : String)
  | clear

/-- Apply one store-writing operation. -/
def applyOp (m : TranscriptMap) : StoreOp → TranscriptMap
  | StoreOp.transcription fence ts => handleTranscriptionUpdate fence m ts
  | StoreOp.toolBatch now tool => mapSet m (functionCallsId now) (toolEntry now tool)
  | StoreOp.userText now text =>
    let entry : VoxMessage :=
      { id := userTextId now
        name := Speaker.user
        message := some text
        timestamp := now
        isFinal := true
        tool := none }
    mapSet m (userTextId now) entry
  | StoreOp.clear => []

/-- The successive store snapshots produced by a sequence of operations. -/
def storeStates (m : TranscriptMap) : List StoreOp → List TranscriptMap
  | [] => []
  | op :: ops =>
    let m' := applyOp m op
    m' :: storeStates m' ops

/-! ### Invariants and auxiliary definitions used by the verification -/

/-- The invariant a JS Map keyed by message id maintains: every binding
carries its key as its id, and keys are unique. -/
def WellKeyed (m : TranscriptMap) : Prop :=
  (m.map Prod.fst).Nodup ∧ ∀ p ∈ m, (p.2).id = p.1

/-- The store holds a final entry with the given identity. -/
def hasFinalId (m : TranscriptMap) (i : String) : Prop :=
  ∃ v ∈ mapValues m, v.id = i ∧ v.isFinal = true

instance (m : TranscriptMap) (i : String) : Decidable (hasFinalId m i) := by
  unfold hasFinalId
  infer_instance

/-- Relates the memo of the previous serialized message list to the
delivered-identity set: any final identified entry recorded in the memo
has already been delivered. -/
def PrevInv (s : HookState) (i : String) : Prop :=
  ∀ l, s.prevMessages = some l →
    (∃ v ∈ l, v.id = i ∧ v.isFinal = true) → i ∈ s.processedMessageIds

/-- Decimal value of a digit character (inverse of Nat.digitChar below 10). -/
def decDigit (c : Char) : Nat :=
  c.toNat - '0'.toNat

/-- Decode a most-significant-first decimal digit string. -/
def decodeDigits (l : List Char) : Nat :=
  l.foldl (fun a c => a * 10 + decDigit c) 0

/-! Concrete inputs used by counterexamples and witnesses. -/

/-- A live transcription segment for the C1 witness. -/
def c1segLive : TranscriptionSegment :=
  { id := "live", text := "ok", isFinal := true, timestamp := 12, speaker := AUSpeaker.agent }

/-- A stale transcription segment (timestamp 4, below a fence of 10). -/
def c1segStale : TranscriptionSegment :=
  { id := "z", text := "old", isFinal := false, timestamp := 4, speaker := AUSpeaker.agent }

/-- First sighting of identity "a" carrying timestamp 0 (admissible when the
fence is 0). -/
def c3segA : TranscriptionSegment :=
  { id := "a", text := "x", isFinal := false, timestamp := 0, speaker := AUSpeaker.user }

/-- A later upsert of identity "a" with timestamp 5. -/
def c3segB : TranscriptionSegment :=
  { id := "a", text := "y", isFinal := true, timestamp := 5, speaker := AUSpeaker.user }

/-- A stored entry with nonzero timestamp for the C3 witness. -/
def c3msgStored : VoxMessage :=
  { id := "a", name := Speaker.user, message := some "x", timestamp := 3, isFinal := false,
    tool := none }

/-- A hook state whose agent waveform cache holds three samples. -/
def c4state : HookState :=
  { initialHookState 0 with waveformDataMap := { agent := [1, 2, 3], user := [] } }

/-- A hook state in the middle of a connect attempt. -/
def c5state : HookState :=
  { initialHookState 7 with state := VoxAgentState.connecting }

/-- A disconnected hook state with a nonempty store and waveform cache. -/
def c6state : HookState :=
  { initialHookState 0 with
      transcriptMap := [("a", c3msgStored)]
      waveformDataMap := { agent := [7], user := [] } }

/-- A hook state with a delivered identity and a nonempty store. -/
def c7state : HookState :=
  { initialHookState 0 with
      processedMessageIds := ["x"]
      transcriptMap := [("a", c3msgStored)] }

/-- A connected (listening) hook state. -/
def c9state : HookState :=
  { initialHookState 0 with state := VoxAgentState.listening }

/-- A provisional segment for the C2 witness scenario. -/
def c2segHel : TranscriptionSegment :=
  { id := "a", text := "hel", isFinal := false, timestamp := 3, speaker := AUSpeaker.agent }

/-- The finalizing segment for the C2 witness scenario. -/
def c2segHello : TranscriptionSegment :=
  { id := "a", text := "hello", isFinal := true, timestamp := 3, speaker := AUSpeaker.agent }

/-- The C2 witness operation sequence: the same identity is upserted
provisionally, finalized, and then redelivered final. -/
def c2ops : List StoreOp :=
  [StoreOp.transcription 0 [c2segHel],
   StoreOp.transcription 0 [c2segHello],
   StoreOp.transcription 0 [c2segHello]]

/-- An empty tool batch payload. -/
def c10tool1 : FunctionToolsExecuted :=
  { function_calls := [], function_call_outputs := [] }

/-- A one-call tool batch payload, distinct from c10tool1. -/
def c10tool2 : FunctionToolsExecuted :=
  { function_calls := [{ id := "c", type := "function", call_id := "k", arguments := "null",
                         name := "f" }],
    function_call_outputs := [] }

/-! ### Map lemmas -/

theorem mapGet_mapSet_self (m : TranscriptMap) (k : String) (v : VoxMessage) :
    mapGet (mapSet m k v) k = some v := by
  induction m with
  | nil => simp [mapSet, mapGet]
  | cons p rest ih =>
    by_cases h : p.1 = k
    · simp [mapSet, h, mapGet]
    · simpa [mapSet, h, mapGet] using ih

theorem mapGet_mapSet_ne (m : TranscriptMap) (k k' : String) (v : VoxMessage)
    (h : k' ≠ k) : mapGet (mapSet m k v) k' = mapGet m k' := by
  induction m with
  | nil => simp [mapSet, mapGet, Ne.symm h]
  | cons p rest ih =>
    by_cases hp : p.1 = k
    · simp [mapSet, hp, mapGet, Ne.symm h, hp.symm ▸ (Ne.symm h)]
    · by_cases hk' : p.1 = k'
      · simp [mapSet, hp, mapGet, hk', h]
      · simpa [mapSet, hp, mapGet, hk'] using ih

theorem mapSet_mapSet_same (m : TranscriptMap) (k : String) (v1 v2 : VoxMessage) :
    mapSet (mapSet m k v1) k v2 = mapSet m k v2 := by
  induction m with
  | nil => simp [mapSet]
  | cons p rest ih =>
    by_cases h : p.1 = k
    · simp [mapSet, h]
    · simp [mapSet, h, ih]

theorem mem_mapSet (m : TranscriptMap) (k : String) (v : VoxMessage) :
    ∀ q ∈ mapSet m k v, q = (k, v) ∨ q ∈ m := by
  induction m with
  | nil => simp [mapSet]
  | cons p rest ih =>
    by_cases h : p.1 = k
    · intro q hq
      simp only [mapSet, if_pos h, List.mem_cons] at hq
      rcases hq with rfl | hq
      · exact Or.inl rfl
      · exact Or.inr (List.mem_cons_of_mem _ hq)
    · intro q hq
      simp only [mapSet, if_neg h, List.mem_cons] at hq
      rcases hq with rfl | hq
      · exact Or.inr (List.mem_cons_self _ _)
      · rcases ih q hq with h' | h'
        · exact Or.inl h'
        · exact Or.inr (List.mem_cons_of_mem _ h')

theorem keys_mapSet (m : TranscriptMap) (k : String) (v : VoxMessage) :
    (mapSet m k v).map Prod.fst =
      if k ∈ m.map Prod.fst then m.map Prod.fst else m.map Prod.fst ++ [k] := by
  induction m with
  | nil => simp [mapSet]
  | cons p rest ih =>
    by_cases h : p.1 = k
    · simp [mapSet, h]
    · by_cases hk : k ∈ rest.map Prod.fst
      · simp [mapSet, h, ih, hk, Ne.symm h]
      · simp [mapSet, h, ih, hk, Ne.symm h]

/-! ### The well-keyed invariant is preserved by every store write -/

theorem wellKeyed_nil : WellKeyed [] := by
  constructor
  · simp
  · intro p hp
    simp at hp

theorem wellKeyed_mapSet (m : TranscriptMap) (k : String) (v : VoxMessage)
    (h : WellKeyed m) (hv : v.id = k) : WellKeyed (mapSet m k v) := by
  constructor
  · rw [keys_mapSet]
    by_cases hk : k ∈ m.map Prod.fst
    · simpa [hk] using h.1
    · simp only [if_neg hk]
      exact List.Nodup.append h.1 (List.nodup_singleton k)
        (by simpa [List.disjoint_singleton] using hk)
  · intro q hq
    rcases mem_mapSet m k v q hq with rfl | hq'
    · exact hv
    · exact h.2 q hq'

theorem wellKeyed_handleTranscriptionUpdate (fence : Nat) (prevMap : TranscriptMap)
    (ts : List TranscriptionSegment) (h : WellKeyed prevMap) :
    WellKeyed (handleTranscriptionUpdate fence prevMap ts) := by
  unfold handleTranscriptionUpdate
  have aux : ∀ (l : List TranscriptionSegment) (acc : TranscriptMap), WellKeyed acc →
      WellKeyed (l.foldl
        (fun newMap t =>
          if t.timestamp < fence then newMap
          else mapSet newMap t.id (segEntry prevMap t)) acc) := by
    intro l
    induction l with
    | nil => intro acc hacc; exact hacc
    | cons t rest ih =>
      intro acc hacc
      simp only [List.foldl_cons]
      apply ih
      by_cases hst : t.timestamp < fence
      · simpa [hst] using hacc
      · simp only [if_neg hst]
        exact wellKeyed_mapSet _ _ _ hacc rfl
  exact aux ts prevMap h

theorem wellKeyed_applyOp (m : TranscriptMap) (op : StoreOp) (h : WellKeyed m) :
    WellKeyed (applyOp m op) := by
  cases op with
  | transcription fence ts => exact wellKeyed_handleTranscriptionUpdate fence m ts h
  | toolBatch now tool => exact wellKeyed_mapSet _ _ _ h rfl
  | userText now text => exact wellKeyed_mapSet _ _ _ h rfl
  | clear => exact wellKeyed_nil

theorem wellKeyed_storeStates (ops : List StoreOp) :
    ∀ m : TranscriptMap, WellKeyed m → ∀ mp ∈ storeStates m ops, WellKeyed mp := by
  induction ops with
  | nil => intro m _ mp hmp; simp [storeStates] at hmp
  | cons op rest ih =>
    intro m hm mp hmp
    simp only [storeStates, List.mem_cons] at hmp
    rcases hmp with rfl | hmp
    · exact wellKeyed_applyOp m op hm
    · exact ih (applyOp m op) (wellKeyed_applyOp m op hm) mp hmp

/-! ### Sorting lemmas -/

theorem insertSorted_perm (a : VoxMessage) :
    ∀ l : List VoxMessage, List.Perm (insertSorted a l) (a :: l)
  | [] => List.Perm.refl _
  | b :: rest => by
    by_cases h : a.timestamp ≤ b.timestamp
    · simp [insertSorted, h]
    · simp only [insertSorted, if_neg h]
      exact ((insertSorted_perm a rest).cons b).trans (List.Perm.swap a b rest)

theorem sortByTimestamp_perm : ∀ l : List VoxMessage, List.Perm (sortByTimestamp l) l
  | [] => List.Perm.refl _
  | a :: rest =>
    (insertSorted_perm a (sortByTimestamp rest)).trans ((sortByTimestamp_perm rest).cons a)

theorem pairwise_insertSorted (a : VoxMessage) :
    ∀ l : List VoxMessage,
      l.Pairwise (fun x y : VoxMessage => x.timestamp ≤ y.timestamp) →
      (insertSorted a l).Pairwise (fun x y : VoxMessage => x.timestamp ≤ y.timestamp)
  | [], _ => by simp [insertSorted]
  | b :: rest, h => by
    rw [List.pairwise_cons] at h
    by_cases hab : a.timestamp ≤ b.timestamp
    · simp only [insertSorted, if_pos hab]
      refine List.Pairwise.cons ?_ (List.Pairwise.cons h.1 h.2)
      intro y hy
      rcases List.mem_cons.mp hy with rfl | hy'
      · exact hab
      · exact le_trans hab (h.1 y hy')
    · simp only [insertSorted, if_neg hab]
      refine List.Pairwise.cons ?_ (pairwise_insertSorted a rest h.2)
      intro y hy
      rcases List.mem_cons.mp ((insertSorted_perm a rest).mem_iff.mp hy) with rfl | hy'
      · exact le_of_not_le hab
      · exact h.1 y hy'

theorem sortByTimestamp_sorted :
    ∀ l : List VoxMessage,
      (sortByTimestamp l).Pairwise (fun x y : VoxMessage => x.timestamp ≤ y.timestamp)
  | [] => by simp [sortByTimestamp]
  | a :: rest => pairwise_insertSorted a (sortByTimestamp rest) (sortByTimestamp_sorted rest)

theorem visibleMessages_perm (m : TranscriptMap) :
    List.Perm (visibleMessages m) (mapValues m) :=
  sortByTimestamp_perm (mapValues m)

theorem visible_ids_nodup (m : TranscriptMap) (h : WellKeyed m) :
    ((visibleMessages m).map VoxMessage.id).Nodup := by
  have hperm : List.Perm ((visibleMessages m).map VoxMessage.id)
      ((mapValues m).map VoxMessage.id) :=
    (visibleMessages_perm m).map VoxMessage.id
  have hvals : (mapValues m).map VoxMessage.id = m.map Prod.fst := by
    unfold mapValues
    rw [List.map_map]
    exact List.map_congr_left fun p hp => h.2 p hp
  exact hperm.nodup_iff.mpr (hvals ▸ h.1)

/-! ### Fence filtering -/

theorem handleTranscriptionUpdate_filter (fence : Nat) (m : TranscriptMap)
    (ts : List TranscriptionSegment) :
    handleTranscriptionUpdate fence m ts =
      handleTranscriptionUpdate fence m
        (ts.filter fun u => decide (fence ≤ u.timestamp)) := by
  unfold handleTranscriptionUpdate
  have aux : ∀ (l : List TranscriptionSegment) (acc : TranscriptMap),
      l.foldl
        (fun newMap t =>
          if t.timestamp < fence then newMap
          else mapSet newMap t.id (segEntry m t)) acc =
      (l.filter fun u => decide (fence ≤ u.timestamp)).foldl
        (fun newMap t =>
          if t.timestamp < fence then newMap
          else mapSet newMap t.id (segEntry m t)) acc := by
    intro l
    induction l with
    | nil => intro acc; rfl
    | cons t rest ih =>
      intro acc
      by_cases hst : t.timestamp < fence
      · simp [List.filter_cons, Nat.not_le.mpr hst, hst, ih]
      · simp [List.filter_cons, Nat.le_of_not_lt hst, hst, ih]
  exact aux ts m

/-! ### Claim theorems -/

/-- C1: a transcription segment whose timestamp is strictly below the
session fence is dropped: processing it alone leaves the transcript store
(and hence the externally visible transcript) unchanged, and in any batch
the stale segments contribute nothing; the fence is refreshed to the
current clock by every accepted connect and by every disconnect. -/
theorem stale_transcriptions_dropped (fence now : Nat) (m : TranscriptMap)
    (ts : List TranscriptionSegment) (t : TranscriptionSegment)
    (hstale : t.timestamp < fence) (s : HookState) :
    handleTranscriptionUpdate fence m [t] = m ∧
    visibleMessages (handleTranscriptionUpdate fence m [t]) = visibleMessages m ∧
    handleTranscriptionUpdate fence m ts =
      handleTranscriptionUpdate fence m
        (ts.filter fun u => decide (fence ≤ u.timestamp)) ∧
    ((connect now s).2 = none → (connect now s).1.sessionTimestamp = now) ∧
    (disconnect now s).sessionTimestamp = now := by
  have h1 : handleTranscriptionUpdate fence m [t] = m := by
    simp [handleTranscriptionUpdate, hstale]
  refine ⟨h1, by rw [h1], handleTranscriptionUpdate_filter fence m ts, ?_, ?_⟩
  · intro hacc
    by_cases h : s.state = VoxAgentState.disconnected
    · simp [connect, h]
    · simp [connect, h] at hacc
  · simp [disconnect]

/-- Witness for C1 at concrete inputs. -/
theorem stale_transcriptions_dropped_witness :
    c1segStale.timestamp < 10 ∧
    (handleTranscriptionUpdate 10 [] [c1segStale] = [] ∧
      visibleMessages (handleTranscriptionUpdate 10 [] [c1segStale]) = visibleMessages [] ∧
      handleTranscriptionUpdate 10 [] [c1segStale, c1segLive] =
        handleTranscriptionUpdate 10 []
          ([c1segStale, c1segLive].filter fun u => decide (10 ≤ u.timestamp)) ∧
      ((connect 77 (initialHookState 0)).2 = none →
        (connect 77 (initialHookState 0)).1.sessionTimestamp = 77) ∧
      (disconnect 77 (initialHookState 0)).sessionTimestamp = 77) :=
  ⟨by decide,
   stale_transcriptions_dropped 10 77 [] [c1segStale, c1segLive] c1segStale (by decide)
     (initialHookState 0)⟩

/-- C3 counterexample: identity "a" is first inserted with timestamp 0
(admissible under a fence of 0); a later upsert of the same identity with
timestamp 5 does not preserve the original timestamp: the JS expression
prevMap.get(id)?.timestamp || t.timestamp treats the stored 0 as falsy and
stores 5 instead. -/
theorem timestamp_not_preserved_at_zero :
    mapGet (handleTranscriptionUpdate 0 [] [c3segA]) "a" =
      some { id := "a", name := Speaker.user, message := some "x", timestamp := 0,
             isFinal := false, tool := none } ∧
    (mapGet (handleTranscriptionUpdate 0 (handleTranscriptionUpdate 0 [] [c3segA]) [c3segB])
        "a").map VoxMessage.timestamp = some 5 ∧
    (5 : Nat) ≠ 0 := by
  decide

/-- C3 amended: an upsert of an identity already stored with a nonzero
timestamp keeps that timestamp and overwrites text and finality; a stored
timestamp of 0 is instead replaced by the new event's timestamp. -/
theorem timestamp_preserved_when_nonzero (fence : Nat) (m : TranscriptMap)
    (t : TranscriptionSegment) (v : VoxMessage) (hget : mapGet m t.id = some v)
    (hts : v.timestamp ≠ 0) (hlive : ¬ t.timestamp < fence) :
    ∃ w, mapGet (handleTranscriptionUpdate fence m [t]) t.id = some w ∧
      w.timestamp = v.timestamp ∧ w.message = some t.text ∧ w.isFinal = t.isFinal := by
  refine ⟨segEntry m t, ?_, ?_, rfl, rfl⟩
  · have h1 : handleTranscriptionUpdate fence m [t] = mapSet m t.id (segEntry m t) := by
      simp [handleTranscriptionUpdate, hlive]
    rw [h1]
    exact mapGet_mapSet_self m t.id (segEntry m t)
  · simp [segEntry, hget, hts]

/-- Witness for the amended C3 at concrete inputs. -/
theorem timestamp_preserved_when_nonzero_witness :
    mapGet [("a", c3msgStored)] c3segB.id = some c3msgStored ∧
    c3msgStored.timestamp ≠ 0 ∧
    ¬ c3segB.timestamp < 0 ∧
    (∃ w,
      mapGet (handleTranscriptionUpdate 0 [("a", c3msgStored)] [c3segB]) c3segB.id = some w ∧
      w.timestamp = c3msgStored.timestamp ∧ w.message = some c3segB.text ∧
      w.isFinal = c3segB.isFinal) :=
  ⟨by decide, by decide, by decide,
   timestamp_preserved_when_nonzero 0 [("a", c3msgStored)] c3segB c3msgStored
     (by decide) (by decide) (by decide)⟩

/-- C4 counterexample: with three cached samples and barCount 5,
audioWaveform returns the three samples, not a sequence of length 5. -/
theorem audioWaveform_short_buffer :
    (audioWaveform c4state AUSpeaker.agent 5 20).1 = [1, 2, 3] ∧
    ((audioWaveform c4state AUSpeaker.agent 5 20).1).length ≠ 5 := by
  decide

/-- C4 amended: audioWaveform returns the first barCount cached samples
when the cache is nonempty (so only min barCount length samples when the
cache is short), and a zero-filled sequence of length barCount only when
the cache is empty. -/
theorem audioWaveform_truncates_or_pads (s : HookState) (sp : AUSpeaker)
    (barCount updateInterval : Nat) :
    (audioWaveform s sp barCount updateInterval).1 =
      (if waveformOf s.waveformDataMap sp = [] then List.replicate barCount 0
       else (waveformOf s.waveformDataMap sp).take barCount) ∧
    ((audioWaveform s sp barCount updateInterval).1).length =
      (if waveformOf s.waveformDataMap sp = [] then barCount
       else min barCount (waveformOf s.waveformDataMap sp).length) := by
  unfold audioWaveform
  by_cases h : waveformOf s.waveformDataMap sp = []
  · simp [h]
  · have hlen : 0 < (waveformOf s.waveformDataMap sp).length :=
      List.length_pos.mpr h
    simp [h, hlen, List.length_take]

/-- C5: connect called while the phase is not disconnected is rejected:
the promise rejects with an error (also surfaced through onError) and the
whole hook state, hence the phase, the fence, the store, and the
connection detail, keeps its prior value. -/
theorem connect_rejected_when_not_disconnected (now : Nat) (s : HookState)
    (h : s.state ≠ VoxAgentState.disconnected) :
    (connect now s).1 = s ∧ (connect now s).2.isSome = true := by
  simp [connect, h]

/-- Witness for C5: a second connect issued while connecting. -/
theorem connect_rejected_witness :
    c5state.state ≠ VoxAgentState.disconnected ∧
    ((connect 99 c5state).1 = c5state ∧ (connect 99 c5state).2.isSome = true) :=
  ⟨by decide, connect_rejected_when_not_disconnected 99 c5state (by decide)⟩

/-- C6 counterexample: an accepted connect from a disconnected state with
a nonempty transcript store and waveform cache clears neither of them. -/
theorem connect_does_not_clear_state :
    (connect 100 c6state).2 = none ∧
    c6state.transcriptMap ≠ [] ∧
    (connect 100 c6state).1.transcriptMap = c6state.transcriptMap ∧
    c6state.waveformDataMap.agent ≠ [] ∧
    (connect 100 c6state).1.waveformDataMap = c6state.waveformDataMap := by
  decide

/-- C6 amended: the start of every accepted connect refreshes the session
fence and moves the phase to connecting, leaving every other part of the
state, in particular the transcript store and the waveform cache,
unchanged (the store is cleared on disconnect and on connect failure; the
waveform cache is never cleared). -/
theorem connect_accepted_refreshes_fence_only (now : Nat) (s : HookState)
    (h : s.state = VoxAgentState.disconnected) :
    (connect now s).2 = none ∧
    (connect now s).1 =
      { s with sessionTimestamp := now, state := VoxAgentState.connecting } := by
  simp [connect, h]

/-- Witness for the amended C6. -/
theorem connect_accepted_witness :
    c6state.state = VoxAgentState.disconnected ∧
    ((connect 100 c6state).2 = none ∧
      (connect 100 c6state).1 =
        { c6state with sessionTimestamp := 100, state := VoxAgentState.connecting }) :=
  ⟨by decide, connect_accepted_refreshes_fence_only 100 c6state (by decide)⟩

/-- C7 counterexample: disconnect (like the connect failure path) clears
the stored entries but leaves the delivered-identity set intact. -/
theorem reset_keeps_delivered_ids :
    c7state.processedMessageIds = ["x"] ∧
    (disconnect 50 c7state).transcriptMap = [] ∧
    (disconnect 50 c7state).processedMessageIds = ["x"] ∧
    (connectCatch c7state).transcriptMap = [] ∧
    (connectCatch c7state).processedMessageIds = ["x"] := by
  decide

/-- C7 amended: both resets of the transcript store (disconnect and the
connect failure path) clear the stored entries and the published message
list, but neither ever clears the delivered-identity set, which persists
for the lifetime of the hook. -/
theorem reset_clears_entries_not_delivered_set (now : Nat) (s : HookState) :
    (disconnect now s).transcriptMap = [] ∧
    (disconnect now s).messages = [] ∧
    (disconnect now s).processedMessageIds = s.processedMessageIds ∧
    (connectCatch s).transcriptMap = [] ∧
    (connectCatch s).messages = [] ∧
    (connectCatch s).processedMessageIds = s.processedMessageIds := by
  simp [disconnect, connectCatch]

/-- C9 counterexample: a DTMF digit outside 0 to 9 (42) is relayed on the
channel unchanged; no validation happens before dispatch. -/
theorem dtmf_not_validated :
    (send 10 c9state none (some 42)).2 = [OutboundMessage.send_dtmf 42] ∧
    ¬ ((0 : Int) ≤ 42 ∧ (42 : Int) ≤ 9) := by
  decide

/-- C9 amended: while the phase is not disconnected, send relays any
provided digit value on the channel without validating it, and leaves the
state unchanged. -/
theorem send_digit_relayed_unvalidated (now : Nat) (s : HookState) (d : Int)
    (h : s.state ≠ VoxAgentState.disconnected) :
    (send now s none (some d)).2 = [OutboundMessage.send_dtmf d] ∧
    (send now s none (some d)).1 = s := by
  simp [send, h]

/-- Witness for the amended C9. -/
theorem send_digit_relayed_witness :
    c9state.state ≠ VoxAgentState.disconnected ∧
    ((send 10 c9state none (some 42)).2 = [OutboundMessage.send_dtmf 42] ∧
      (send 10 c9state none (some 42)).1 = c9state) :=
  ⟨by decide, send_digit_relayed_unvalidated 10 c9state 42 (by decide)⟩

/-- C8: whatever sequence of store-writing operations the program runs,
the externally visible transcript is sorted by timestamp ascending and
holds at most one entry per identity. -/
theorem transcript_sorted_and_unique (ops : List StoreOp) :
    (visibleMessages (ops.foldl applyOp [])).Pairwise
      (fun a b : VoxMessage => a.timestamp ≤ b.timestamp) ∧
    ((visibleMessages (ops.foldl applyOp [])).map VoxMessage.id).Nodup := by
  have hwk : WellKeyed (ops.foldl applyOp []) := by
    have aux : ∀ (l : List StoreOp) (m : TranscriptMap), WellKeyed m →
        WellKeyed (l.foldl applyOp m) := by
      intro l
      induction l with
      | nil => intro m hm; exact hm
      | cons op rest ih => intro m hm; exact ih _ (wellKeyed_applyOp m op hm)
    exact aux ops [] wellKeyed_nil
  constructor
  · unfold visibleMessages
    exact sortByTimestamp_sorted _
  · exact visible_ids_nodup _ hwk

/-! ### One-time delivery of finalized entries -/

theorem messagesEffect_processed (s : HookState) :
    (messagesEffect s).1.processedMessageIds =
      s.processedMessageIds ++ ((messagesEffect s).2.map VoxMessage.id) := by
  unfold messagesEffect
  by_cases h : s.prevMessages = some (visibleMessages s.transcriptMap)
  · simp [h]
  · simp [h]

theorem messagesEffect_out_fresh (s : HookState) (i : String)
    (h : i ∈ (messagesEffect s).2.map VoxMessage.id) : i ∉ s.processedMessageIds := by
  unfold messagesEffect at h
  by_cases hc : s.prevMessages = some (visibleMessages s.transcriptMap)
  · simp [hc] at h
  · simp only [hc, if_neg, ite_false] at h
    obtain ⟨v, hv, rfl⟩ := List.mem_map.mp h
    have hpred := List.of_mem_filter hv
    simp only [Bool.and_eq_true, decide_eq_true_eq] at hpred
    exact hpred.2

theorem messagesEffect_out_ids_nodup (s : HookState) (h : WellKeyed s.transcriptMap) :
    ((messagesEffect s).2.map VoxMessage.id).Nodup := by
  unfold messagesEffect
  by_cases hc : s.prevMessages = some (visibleMessages s.transcriptMap)
  · simp [hc]
  · simp only [hc, if_neg, ite_false]
    have hsub : List.Sublist
        (((visibleMessages s.transcriptMap).filter fun m =>
          m.isFinal && decide (m.id ≠ "") && decide (m.id ∉ s.processedMessageIds)).map
            VoxMessage.id)
        ((visibleMessages s.transcriptMap).map VoxMessage.id) :=
      (List.filter_sublist _).map VoxMessage.id
    exact (visible_ids_nodup _ h).sublist hsub

theorem runEffects_processed (snaps : List TranscriptMap) :
    ∀ s : HookState, (runEffects s snaps).1.processedMessageIds =
      s.processedMessageIds ++ ((runEffects s snaps).2.map VoxMessage.id) := by
  induction snaps with
  | nil => intro s; simp [runEffects]
  | cons mp rest ih =>
    intro s
    simp only [runEffects, List.map_append]
    rw [ih, messagesEffect_processed]
    simp [List.append_assoc]

theorem runEffects_processed_mono (snaps : List TranscriptMap) (s : HookState) (i : String)
    (h : i ∈ s.processedMessageIds) : i ∈ (runEffects s snaps).1.processedMessageIds := by
  rw [runEffects_processed]
  exact List.mem_append_left _ h

theorem runEffects_no_redelivery (snaps : List TranscriptMap) :
    ∀ (s : HookState) (i : String), i ∈ s.processedMessageIds →
      i ∉ (runEffects s snaps).2.map VoxMessage.id := by
  induction snaps with
  | nil => intro s i _ hmem; simp [runEffects] at hmem
  | cons mp rest ih =>
    intro s i hi hmem
    simp only [runEffects, List.map_append, List.mem_append] at hmem
    rcases hmem with hmem | hmem
    · exact messagesEffect_out_fresh _ i hmem hi
    · refine ih _ i ?_ hmem
      rw [messagesEffect_processed]
      exact List.mem_append_left _ hi

theorem runEffects_count_le_one (snaps : List TranscriptMap)
    (hwk : ∀ mp ∈ snaps, WellKeyed mp) :
    ∀ (s : HookState) (i : String),
      ((runEffects s snaps).2.map VoxMessage.id).count i ≤ 1 := by
  induction snaps with
  | nil => intro s i; simp [runEffects]
  | cons mp rest ih =>
    intro s i
    simp only [runEffects, List.map_append, List.count_append]
    by_cases hmem : i ∈ (messagesEffect { s with transcriptMap := mp }).2.map VoxMessage.id
    · have h1 : ((messagesEffect { s with transcriptMap := mp }).2.map
          VoxMessage.id).count i ≤ 1 := by
        have hnd := messagesEffect_out_ids_nodup { s with transcriptMap := mp }
          (by simpa using hwk mp (List.mem_cons_self mp rest))
        exact List.nodup_iff_count_le_one.mp hnd i
      have h2 : ((runEffects (messagesEffect { s with transcriptMap := mp }).1 rest).2.map
          VoxMessage.id).count i = 0 := by
        apply List.count_eq_zero.mpr
        apply runEffects_no_redelivery
        rw [messagesEffect_processed]
        exact List.mem_append_right _ hmem
      omega
    · have h1 : ((messagesEffect { s with transcriptMap := mp }).2.map
          VoxMessage.id).count i = 0 := List.count_eq_zero.mpr hmem
      have h2 := ih (fun q hq => hwk q (List.mem_cons_of_mem mp hq))
        (messagesEffect { s with transcriptMap := mp }).1 i
      omega

theorem messagesEffect_mem_processed (s : HookState) (mp : TranscriptMap) (i : String)
    (hi : i ≠ "") (hinv : PrevInv s i) (hfin : hasFinalId mp i) :
    i ∈ (messagesEffect { s with transcriptMap := mp }).1.processedMessageIds := by
  obtain ⟨v, hv, hid, hvfin⟩ := hfin
  have hvis : v ∈ visibleMessages mp := (visibleMessages_perm mp).mem_iff.mpr hv
  unfold messagesEffect
  by_cases hc : s.prevMessages = some (visibleMessages mp)
  · simp only [hc]
    simpa using hinv (visibleMessages mp) hc ⟨v, hvis, hid, hvfin⟩
  · simp only [hc, if_neg, ite_false]
    by_cases hp : i ∈ s.processedMessageIds
    · exact List.mem_append_left _ hp
    · apply List.mem_append_right
      apply List.mem_map.mpr
      refine ⟨v, ?_, hid⟩
      apply List.mem_filter.mpr
      refine ⟨hvis, ?_⟩
      simp only [Bool.and_eq_true, decide_eq_true_eq]
      exact ⟨⟨hvfin, hid ▸ hi⟩, hid ▸ hp⟩

theorem messagesEffect_prev (s : HookState) :
    (messagesEffect s).1.prevMessages = some (visibleMessages s.transcriptMap) := by
  unfold messagesEffect
  by_cases hc : s.prevMessages = some (visibleMessages s.transcriptMap)
  · simp [hc]
  · simp [hc]

theorem messagesEffect_prevInv (s : HookState) (mp : TranscriptMap) (i : String)
    (hi : i ≠ "") (hinv : PrevInv s i) :
    PrevInv (messagesEffect { s with transcriptMap := mp }).1 i := by
  intro l hl hfin
  have hprev := messagesEffect_prev { s with transcriptMap := mp }
  have hl2 := hprev.symm.trans hl
  have hl' : visibleMessages mp = l := by
    simp at hl2
    exact hl2
  subst hl'
  have hfin' : hasFinalId mp i := by
    obtain ⟨v, hv, hid, hvfin⟩ := hfin
    exact ⟨v, (visibleMessages_perm mp).mem_iff.mp hv, hid, hvfin⟩
  exact messagesEffect_mem_processed s mp i hi hinv hfin'

theorem runEffects_delivers (snaps : List TranscriptMap) :
    ∀ (s : HookState) (i : String), i ≠ "" → PrevInv s i →
      (∃ mp ∈ snaps, hasFinalId mp i) →
      i ∈ (runEffects s snaps).1.processedMessageIds := by
  induction snaps with
  | nil => intro s i _ _ hex; simp at hex
  | cons mp rest ih =>
    intro s i hi hinv hex
    simp only [runEffects]
    rcases hex with ⟨mp', hmp', hfin⟩
    rcases List.mem_cons.mp hmp' with rfl | hmp''
    · exact runEffects_processed_mono rest _ i
        (messagesEffect_mem_processed s mp' i hi hinv hfin)
    · exact ih _ i hi (messagesEffect_prevInv s mp i hi hinv) ⟨mp', hmp'', hfin⟩

/-- C2: from a freshly mounted hook (empty delivered-identity set, no
previous serialization), over any sequence of store operations, an
identity that at some point is stored final is delivered to onMessage
exactly once, no matter how often later upserts redeliver it final. -/
theorem notify_final_exactly_once (ops : List StoreOp) (i : String) (s0 : HookState)
    (hi : i ≠ "") (hp : s0.processedMessageIds = []) (hprev : s0.prevMessages = none)
    (hfin : ∃ mp ∈ storeStates [] ops, hasFinalId mp i) :
    ((runEffects s0 (storeStates [] ops)).2.map VoxMessage.id).count i = 1 := by
  have hwk := wellKeyed_storeStates ops [] wellKeyed_nil
  have hle := runEffects_count_le_one (storeStates [] ops) hwk s0 i
  have hinv : PrevInv s0 i := by
    intro l hl
    rw [hprev] at hl
    cases hl
  have hmem := runEffects_delivers (storeStates [] ops) s0 i hi hinv hfin
  rw [runEffects_processed, hp, List.nil_append] at hmem
  have hge : 0 < ((runEffects s0 (storeStates [] ops)).2.map VoxMessage.id).count i :=
    List.count_pos_iff.mpr hmem
  omega

/-- Witness for C2: the same identity arrives provisional, then final,
then final again; it is delivered exactly once. -/
theorem notify_final_exactly_once_witness :
    ("a" : String) ≠ "" ∧
    (∃ mp ∈ storeStates [] c2ops, hasFinalId mp "a") ∧
    ((runEffects (initialHookState 0) (storeStates [] c2ops)).2.map
      VoxMessage.id).count "a" = 1 :=
  ⟨by decide, by decide,
   notify_final_exactly_once c2ops "a" (initialHookState 0) (by decide) rfl rfl (by decide)⟩

/-! ### Injectivity of the decimal rendering used by the minted keys -/

theorem decDigit_digitChar : ∀ d < 10, decDigit (Nat.digitChar d) = d := by
  decide

theorem toDigitsCore_fuel (f1 : Nat) : ∀ (f2 n : Nat) (acc : List Char),
    n < f1 → n < f2 →
    Nat.toDigitsCore 10 f1 n acc = Nat.toDigitsCore 10 f2 n acc := by
  induction f1 with
  | zero => intro f2 n acc h1 _; omega
  | succ f ih =>
    intro f2 n acc h1 h2
    cases f2 with
    | zero => omega
    | succ g =>
      simp only [Nat.toDigitsCore]
      by_cases h : n / 10 = 0
      · simp [h]
      · simp only [h, ite_false]
        exact ih g (n / 10) (Nat.digitChar (n % 10) :: acc) (by omega) (by omega)

theorem toDigitsCore_acc (f : Nat) : ∀ (n : Nat) (acc : List Char),
    Nat.toDigitsCore 10 f n acc = Nat.toDigitsCore 10 f n [] ++ acc := by
  induction f with
  | zero => intro n acc; simp [Nat.toDigitsCore]
  | succ f ih =>
    intro n acc
    simp only [Nat.toDigitsCore]
    by_cases h : n / 10 = 0
    · simp [h]
    · simp only [h, ite_false]
      rw [ih (n / 10) (Nat.digitChar (n % 10) :: acc),
        ih (n / 10) [Nat.digitChar (n % 10)]]
      simp

theorem decodeDigits_toDigits (n : Nat) : decodeDigits (Nat.toDigits 10 n) = n := by
  induction n using Nat.strong_induction_on with
  | _ n ih =>
    unfold Nat.toDigits
    by_cases h : n / 10 = 0
    · have hn : n < 10 := by omega
      have hstep : Nat.toDigitsCore 10 (n + 1) n [] = [Nat.digitChar (n % 10)] := by
        simp [Nat.toDigitsCore, h]
      rw [hstep]
      simp [decodeDigits, Nat.mod_eq_of_lt hn, decDigit_digitChar n hn]
    · have hstep : Nat.toDigitsCore 10 (n + 1) n [] =
          Nat.toDigitsCore 10 n (n / 10) [Nat.digitChar (n % 10)] := by
        simp [Nat.toDigitsCore, h]
      rw [hstep, toDigitsCore_acc n (n / 10) [Nat.digitChar (n % 10)]]
      have hfuel : Nat.toDigitsCore 10 n (n / 10) [] = Nat.toDigits 10 (n / 10) := by
        unfold Nat.toDigits
        exact toDigitsCore_fuel n (n / 10 + 1) (n / 10) [] (by omega) (by omega)
      rw [hfuel]
      have hdec := ih (n / 10) (by omega)
      unfold decodeDigits at hdec ⊢
      rw [List.foldl_append, hdec]
      simp only [List.foldl_cons, List.foldl_nil]
      rw [decDigit_digitChar (n % 10) (by omega)]
      omega

theorem natRepr_inj (m n : Nat) (h : Nat.repr m = Nat.repr n) : m = n := by
  have hdata : Nat.toDigits 10 m = Nat.toDigits 10 n := by
    have hd := congrArg String.data h
    simpa [Nat.repr, List.asString] using hd
  have hdec := congrArg decodeDigits hdata
  rwa [decodeDigits_toDigits, decodeDigits_toDigits] at hdec

theorem functionCallsId_inj (n1 n2 : Nat) (h : n1 ≠ n2) :
    functionCallsId n1 ≠ functionCallsId n2 := by
  intro heq
  apply h
  apply natRepr_inj
  have hdata := congrArg String.data heq
  simp only [functionCallsId, String.data_append] at hdata
  have hcancel := List.append_cancel_left hdata
  exact String.ext hcancel

/-- C10: tool-call transcript entries are keyed by the millisecond clock:
two tool-call events handled at distinct milliseconds each keep their own
entry, while two handled at the same millisecond collapse into a single
entry holding the later payload. -/
theorem tool_call_entries_keyed_by_clock (s : HookState) (now1 now2 : Nat)
    (t1 t2 : FunctionToolsExecuted) :
    (now1 ≠ now2 →
      mapGet (onPortMessage now2 (onPortMessage now1 s
          (MessageChannelEvent.function_tools_executed t1))
          (MessageChannelEvent.function_tools_executed t2)).transcriptMap
        (functionCallsId now1) = some (toolEntry now1 t1) ∧
      mapGet (onPortMessage now2 (onPortMessage now1 s
          (MessageChannelEvent.function_tools_executed t1))
          (MessageChannelEvent.function_tools_executed t2)).transcriptMap
        (functionCallsId now2) = some (toolEntry now2 t2)) ∧
    (now1 = now2 →
      (onPortMessage now2 (onPortMessage now1 s
          (MessageChannelEvent.function_tools_executed t1))
          (MessageChannelEvent.function_tools_executed t2)).transcriptMap =
        mapSet s.transcriptMap (functionCallsId now2) (toolEntry now2 t2)) := by
  constructor
  · intro hne
    constructor
    · simp only [onPortMessage]
      rw [mapGet_mapSet_ne _ _ _ _ (functionCallsId_inj now1 now2 hne)]
      exact mapGet_mapSet_self _ _ _
    · simp only [onPortMessage]
      exact mapGet_mapSet_self _ _ _
  · intro heq
    subst heq
    simp only [onPortMessage]
    exact mapSet_mapSet_same _ _ _ _

/-- Witness for C10: distinct milliseconds 1 and 2 produce two entries;
the same millisecond collapses into the later payload. -/
theorem tool_call_entries_keyed_by_clock_witness :
    ((1 : Nat) ≠ 2 ∧
      mapGet (onPortMessage 2 (onPortMessage 1 (initialHookState 0)
          (MessageChannelEvent.function_tools_executed c10tool1))
          (MessageChannelEvent.function_tools_executed c10tool2)).transcriptMap
        (functionCallsId 1) = some (toolEntry 1 c10tool1) ∧
      mapGet (onPortMessage 2 (onPortMessage 1 (initialHookState 0)
          (MessageChannelEvent.function_tools_executed c10tool1))
          (MessageChannelEvent.function_tools_executed c10tool2)).transcriptMap
        (functionCallsId 2) = some (toolEntry 2 c10tool2)) ∧
    (onPortMessage 1 (onPortMessage 1 (initialHookState 0)
        (MessageChannelEvent.function_tools_executed c10tool1))
        (MessageChannelEvent.function_tools_executed c10tool2)).transcriptMap =
      mapSet (initialHookState 0).transcriptMap (functionCallsId 1) (toolEntry 1 c10tool2) :=
  ⟨⟨by decide,
    ((tool_call_entries_keyed_by_clock (initialHookState 0) 1 2 c10tool1 c10tool2).1
      (by decide)).1,
    ((tool_call_entries_keyed_by_clock (initialHookState 0) 1 2 c10tool1 c10tool2).1
      (by decide)).2⟩,
   (tool_call_entries_keyed_by_clock (initialHookState 0) 1 1 c10tool1 c10tool2).2 rfl⟩

end VoxAI
